import Mathlib

/-!
Verification of the request-matching engine of the `shm` mock-server
library.  The repository ships only `src/index.ts` (re-exports) and the
test suite; the engine itself lives in the modules `./server`,
`./createMockServer` and `./types` that `src/index.ts` re-exports, so the
engine is modelled here from the specification's description of the data
model and algorithms.  Strings are modelled as lists of characters.
-/

namespace Shm

/-- Strings of the modelled engine, as lists of characters. -/
abbrev Str := List Char

/-- Prepends a character to the first chunk of a split result. -/
def consHead (x : Char) : List Str → List Str
  | [] => [[x]]
  | y :: ys => (x :: y) :: ys

/-- Modelled from the spec: splitting a string at every occurrence of a
delimiter character, as the missing server module's path compiler does
with the delimiter slash. -/
def splitOnChar (c : Char) : Str → List Str
  | [] => [[]]
  | x :: xs => if x = c then [] :: splitOnChar c xs else consHead x (splitOnChar c xs)

/-- Removes a single leading empty chunk, if present. -/
def dropLeadEmpty : List Str → List Str
  | [] => []
  | [] :: rest => rest
  | (a :: as) :: rest => (a :: as) :: rest

/-- Removes a single trailing empty chunk, if present. -/
def dropTrailEmpty (l : List Str) : List Str :=
  if l.getLast? = some [] then l.dropLast else l

/-- Modelled from the spec: the slash-delimited segments of a path,
ignoring a single leading or trailing empty segment caused by a
leading/trailing slash (4.1 of the spec; the compiler itself is in the
missing server module). -/
def segmentsOf (s : Str) : List Str :=
  dropLeadEmpty (dropTrailEmpty (splitOnChar '/' s))

/-- Modelled from the spec: one segment matcher of a compiled Path
Template — either a literal string or a named parameter placeholder. -/
inductive Segment
  | lit (s : Str)
  | param (name : Str)
deriving DecidableEq

/-- Modelled from the spec: a pattern segment beginning with a colon is a
named parameter; any other segment is a literal. -/
def compileSeg (s : Str) : Segment :=
  match s with
  | ':' :: name => Segment.param name
  | _ => Segment.lit s

/-- Modelled from the spec: compiling a path pattern into its ordered
sequence of segment matchers. -/
def compilePath (pattern : Str) : List Segment :=
  (segmentsOf pattern).map compileSeg

/-- Modelled from the spec: matching a compiled template against the
segments of a request path.  Fails unless segment counts are equal and
every literal segment matches exactly; on success returns the values
captured at each named-parameter position. -/
def matchSegs : List Segment → List Str → Option (List (Str × Str))
  | [], [] => some []
  | Segment.lit s :: ts, q :: qs => if s = q then matchSegs ts qs else none
  | Segment.param n :: ts, q :: qs => (matchSegs ts qs).map (fun ps => (n, q) :: ps)
  | _, _ => none

/-- Whether a registered pattern matches a request path (the isMatch part
of the Path Template contract). -/
def pathIsMatch (pattern path : Str) : Bool :=
  (matchSegs (compilePath pattern) (segmentsOf path)).isSome

/-- The variant of a string carrying a leading slash (the string itself
when it already starts with one). -/
def withLead (s : Str) : Str :=
  if s.head? = some '/' then s else '/' :: s

/-- The variant of a string carrying a trailing slash (the string itself
when it already ends with one). -/
def withTrail (s : Str) : Str :=
  if s.getLast? = some '/' then s else s ++ ['/']

/-- A string together with its leading-slash, trailing-slash and
both-slash variants. -/
def slashVariants (s : Str) : List Str :=
  [s, withLead s, withTrail s, withLead (withTrail s)]

/-- Numeric value of a hexadecimal digit character. -/
def hexVal (c : Char) : Option Nat :=
  if '0' ≤ c ∧ c ≤ '9' then some (c.toNat - '0'.toNat)
  else if 'a' ≤ c ∧ c ≤ 'f' then some (c.toNat - 'a'.toNat + 10)
  else if 'A' ≤ c ∧ c ≤ 'F' then some (c.toNat - 'A'.toNat + 10)
  else none

/-- Modelled from the spec: percent-decoding of a URL component, so that
search-parameter comparison is a decoded comparison (4.2 of the spec);
a plus sign decodes to a space as in query strings. -/
def percentDecode : Str → Str
  | [] => []
  | '%' :: h :: l :: rest =>
    match hexVal h, hexVal l with
    | some a, some b => Char.ofNat (16 * a + b) :: percentDecode rest
    | _, _ => '%' :: percentDecode (h :: l :: rest)
  | '+' :: rest => ' ' :: percentDecode rest
  | c :: rest => c :: percentDecode rest

/-- Splits a registered pattern or request target at the first question
mark into a path part and an optional query part. -/
def splitQ : Str → Str × Option Str
  | [] => ([], none)
  | '?' :: rest => ([], some rest)
  | c :: rest => ((splitQ rest).1.cons c, (splitQ rest).2)

/-- Splits one query pair at the first equals sign. -/
def splitEq : Str → Str × Option Str
  | [] => ([], none)
  | '=' :: rest => ([], some rest)
  | c :: rest => ((splitEq rest).1.cons c, (splitEq rest).2)

/-- Decoded key/value of one raw query pair. -/
def parsePair (s : Str) : Str × Str :=
  (percentDecode (splitEq s).1, percentDecode (((splitEq s).2).getD []))

/-- Modelled from the spec: parsing a raw query string into its decoded
key/value multimap. -/
def parseQuery (q : Str) : List (Str × Str) :=
  if q = [] then [] else (splitOnChar '&' q).map parsePair

/-- Every required key/value pair occurs among the given pairs. -/
def pairsSubset (required given : List (Str × Str)) : Bool :=
  required.all (fun kv => given.any (fun kv2 => decide (kv2 = kv)))

/-- Modelled from the spec: the Search-Param Predicate — true only if
every key in the required map is present in the request query with an
equal (decoded) value; extraneous request keys never cause a mismatch. -/
def searchMatches (requestQuery required : List (Str × Str)) : Bool :=
  pairsSubset required requestQuery

/-- Modelled from the spec: a response description — status code, body
and headers, all optional at registration, defaulting to status 200 and
empty body. -/
structure ResponseDesc where
  status : Nat
  body : Str
  headers : List (Str × Str)
deriving DecidableEq

/-- Modelled from the spec: the inbound request payload captured for
later inspection (method, url, headers, body). -/
structure RequestPayload where
  method : Str
  url : Str
  headers : List (Str × Str)
  body : Str
deriving DecidableEq

/-- Modelled from the spec: the normalized internal registration
configuration every registration argument is converted to (9 of the
spec): optional exact path-param and search-param constraints plus a
response description. -/
structure HandlerConfig where
  pathParams : List (Str × Str)
  searchParams : List (Str × Str)
  response : ResponseDesc
deriving DecidableEq

/-- The configuration a bare response body normalizes to. -/
def bareConfig (b : Str) : HandlerConfig :=
  { pathParams := [], searchParams := [], response := { status := 200, body := b, headers := [] } }

/-- Modelled from the spec: one registered mock — normalized method,
compiled path template, required path-param and search-param constraint
maps, response description, and mutable call-history state. -/
structure HandlerRecord where
  method : Str
  template : List Segment
  pathParams : List (Str × Str)
  searchParams : List (Str × Str)
  response : ResponseDesc
  callCount : Nat
  sentRequest : Option RequestPayload
deriving DecidableEq

/-- Case-insensitive methods are stored normalized to upper case. -/
def normalizeMethod (m : Str) : Str := m.map Char.toUpper

/-- Modelled from the spec: creating a Handler Record at registration
time.  A query string embedded in the registered pattern is parsed once
here and folded into the required search-param constraints; only the
part before the question mark is compiled for segment matching. -/
def mkHandler (meth pattern : Str) (cfg : HandlerConfig) : HandlerRecord :=
  { method := normalizeMethod meth
    template := compilePath (splitQ pattern).1
    pathParams := cfg.pathParams
    searchParams := cfg.searchParams ++ (((splitQ pattern).2).map parseQuery).getD []
    response := cfg.response
    callCount := 0
    sentRequest := none }

/-- Modelled from the spec: all structural checks of step 2 of the
resolution algorithm — method equality, path-template match, declared
path-param constraints against the captured params, and the Search-Param
Predicate against the request query. -/
def handlerChecks (h : HandlerRecord) (meth path : Str) (query : List (Str × Str)) : Bool :=
  decide (normalizeMethod meth = h.method) &&
    match matchSegs h.template (segmentsOf path) with
    | none => false
    | some captured => pairsSubset h.pathParams captured && searchMatches query h.searchParams

/-- Whether a handler has been called at least once. -/
def wasCalled (h : HandlerRecord) : Bool := decide (0 < h.callCount)

/-- The most recently captured request of a handler, if any. -/
def getSentRequest (h : HandlerRecord) : Option RequestPayload := h.sentRequest

/-- Call-history update applied to the chosen record on a successful
resolution: the counter is incremented and the captured-request slot is
set to the inbound payload. -/
def recordCall (h : HandlerRecord) (p : RequestPayload) : HandlerRecord :=
  { h with callCount := h.callCount + 1, sentRequest := some p }

/-- First element of a list satisfying a test, together with its index. -/
def firstIdx (p : α → Bool) : List α → Option (Nat × α)
  | [] => none
  | x :: xs => if p x then some (0, x) else (firstIdx p xs).map (fun ir => (ir.1 + 1, ir.2))

/-- Replaces the element at an index by the image under a function. -/
def updateAt (f : α → α) : List α → Nat → List α
  | [], _ => []
  | x :: xs, 0 => f x :: xs
  | x :: xs, i + 1 => x :: updateAt f xs i

/-- Modelled from the spec: a Server Instance — one base URL plus the
ordered collection of Handler Records, insertion order preserved. -/
structure ServerInstance where
  baseUrl : Str
  handlers : List HandlerRecord
deriving DecidableEq

/-- A freshly created Server Instance has no handlers. -/
def createInstance (burl : Str) : ServerInstance := ⟨burl, []⟩

/-- Registration appends a new Handler Record at the end of the
instance's ordered collection. -/
def registerHandler (inst : ServerInstance) (meth pattern : Str) (cfg : HandlerConfig) : ServerInstance :=
  { inst with handlers := inst.handlers ++ [mkHandler meth pattern cfg] }

/-- The decoded query pairs of a request target (path plus optional
query string). -/
def queryPairs (pq : Str) : List (Str × Str) :=
  (((splitQ pq).2).map parseQuery).getD []

/-- The payload captured for a resolved request. -/
def mkPayload (meth pq : Str) (hdrs : List (Str × Str)) (bd : Str) : RequestPayload :=
  { method := meth, url := pq, headers := hdrs, body := bd }

/-- Modelled from the spec: step 2/3 of resolution — iterate the Handler
Records in registration order and take the first candidate satisfying
all checks. -/
def firstMatch (hs : List HandlerRecord) (meth path : Str) (query : List (Str × Str)) :
    Option (Nat × HandlerRecord) :=
  firstIdx (fun h => handlerChecks h meth path query) hs

/-- Modelled from the spec: resolution on a Server Instance.  The
request target is split into path and query, the first matching record
(in registration order) is chosen, its call history is updated, and the
chosen record (or NotFound) is returned with the updated instance. -/
def resolveInst (inst : ServerInstance) (meth pq : Str) (hdrs : List (Str × Str)) (bd : Str) :
    Option (Nat × HandlerRecord) × ServerInstance :=
  match firstMatch inst.handlers meth (splitQ pq).1 (queryPairs pq) with
  | none => (none, inst)
  | some (i, r) =>
    (some (i, r),
     { inst with handlers := updateAt (fun h => recordCall h (mkPayload meth pq hdrs bd)) inst.handlers i })

/-- Modelled from the spec: the response-emission collaborator —
NotFound becomes a 404 with an empty body, a chosen record yields its
response description. -/
def emitResponse (r : Option (Nat × HandlerRecord)) : ResponseDesc :=
  match r with
  | none => { status := 404, body := [], headers := [] }
  | some (_, h) => h.response

/-- Modelled from the spec: the process-wide Registry of Server
Instances. -/
structure Registry where
  instances : List ServerInstance
deriving DecidableEq

/-- Whether the first list is a prefix of the second. -/
def listStarts : Str → Str → Bool
  | [], _ => true
  | _ :: _, [] => false
  | x :: xs, y :: ys => decide (x = y) && listStarts xs ys

/-- The Server Instance whose base URL prefixes the request URL, with
its index. -/
def findInst (insts : List ServerInstance) (url : Str) : Option (Nat × ServerInstance) :=
  firstIdx (fun inst => listStarts inst.baseUrl url) insts

/-- Modelled from the spec: handling an intercepted request — pick the
instance whose base URL prefixes the full URL, strip that base, resolve
on that instance, and emit the response (404 with empty body when
nothing matches). -/
def handleRequest (reg : Registry) (meth url : Str) (hdrs : List (Str × Str)) (bd : Str) :
    ResponseDesc × Registry :=
  match findInst reg.instances url with
  | none => ({ status := 404, body := [], headers := [] }, reg)
  | some (i, inst) =>
    let pq := url.drop inst.baseUrl.length
    let res := resolveInst inst meth pq hdrs bd
    (emitResponse res.1, { instances := updateAt (fun _ => res.2) reg.instances i })

/-- Modelled from the spec: resetMockServers drops the handler
registrations of an instance (the open question of 9 of the spec is
settled this way by the repository's test suite, which registers fresh
handlers after every reset and relies on earlier registrations being
gone). -/
def resetInstance (inst : ServerInstance) : ServerInstance :=
  { inst with handlers := [] }

/-- Reset applied to every instance of the Registry. -/
def resetRegistry (reg : Registry) : Registry :=
  { instances := reg.instances.map resetInstance }

/-! ### Lemmas about splitting and slash normalization -/

theorem splitOnChar_ne_nil (c : Char) (s : Str) : splitOnChar c s ≠ [] := by
  cases s with
  | nil => simp [splitOnChar]
  | cons x xs =>
    by_cases h : x = c
    · simp [splitOnChar, h]
    · simp only [splitOnChar, h, if_false]
      cases splitOnChar c xs <;> simp [consHead]

theorem splitOnChar_head_shape (c : Char) (s : Str) (h0 : s ≠ [])
    (h : s.head? ≠ some c) :
    ∃ a as rest, splitOnChar c s = (a :: as) :: rest := by
  cases s with
  | nil => exact absurd rfl h0
  | cons x xs =>
    have hx : ¬ x = c := by
      intro e
      exact h (by simp [List.head?_cons, e])
    simp only [splitOnChar, hx, if_false]
    cases splitOnChar c xs with
    | nil => exact ⟨x, [], [], rfl⟩
    | cons y ys => exact ⟨x, y, ys, rfl⟩

theorem splitOnChar_cons_eq (c : Char) (xs : Str) :
    splitOnChar c (c :: xs) = [] :: splitOnChar c xs := by
  simp [splitOnChar]

theorem splitOnChar_cons_ne (c x : Char) (xs : Str) (h : ¬ x = c) :
    splitOnChar c (x :: xs) = consHead x (splitOnChar c xs) := by
  simp [splitOnChar, h]

theorem splitOnChar_concat_sep (c : Char) (s : Str) :
    splitOnChar c (s ++ [c]) = splitOnChar c s ++ [[]] := by
  induction s with
  | nil => simp [splitOnChar]
  | cons x xs ih =>
    by_cases h : x = c
    · subst h
      rw [List.cons_append, splitOnChar_cons_eq, splitOnChar_cons_eq, ih, List.cons_append]
    · rw [List.cons_append, splitOnChar_cons_ne c x _ h, splitOnChar_cons_ne c x _ h, ih]
      have hne := splitOnChar_ne_nil c xs
      cases h2 : splitOnChar c xs with
      | nil => exact absurd h2 hne
      | cons y ys => simp [consHead]

theorem getLast?_cons_ne_nil {α : Type} (x : α) (l : List α) (h : l ≠ []) :
    (x :: l).getLast? = l.getLast? := by
  cases l with
  | nil => exact absurd rfl h
  | cons y ys => exact List.getLast?_cons_cons

theorem getLast?_splitOnChar_ne (c : Char) (s : Str) (h0 : s ≠ [])
    (h : s.getLast? ≠ some c) :
    (splitOnChar c s).getLast? ≠ some [] := by
  induction s with
  | nil => exact absurd rfl h0
  | cons y ys ih =>
    cases ys with
    | nil =>
      have hy : ¬ y = c := by
        intro e
        exact h (by simp [e])
      simp [splitOnChar, hy, consHead]
    | cons z zs =>
      have hlast : (y :: z :: zs).getLast? = (z :: zs).getLast? := List.getLast?_cons_cons
      rw [hlast] at h
      have ih2 := ih (by simp) h
      by_cases hy : y = c
      · subst hy
        rw [splitOnChar_cons_eq,
          getLast?_cons_ne_nil _ _ (splitOnChar_ne_nil y (z :: zs))]
        exact ih2
      · rw [splitOnChar_cons_ne c y _ hy]
        cases hsp : splitOnChar c (z :: zs) with
        | nil => exact absurd hsp (splitOnChar_ne_nil c (z :: zs))
        | cons w ws =>
          rw [hsp] at ih2
          cases ws with
          | nil => simp [consHead]
          | cons w2 ws2 =>
            simp only [consHead]
            rw [List.getLast?_cons_cons]
            rw [List.getLast?_cons_cons] at ih2
            exact ih2

theorem segmentsOf_slash_cons (s : Str) (h : s.head? ≠ some '/') :
    segmentsOf ('/' :: s) = segmentsOf s := by
  cases hs : s with
  | nil => decide
  | cons x xs =>
    rw [← hs]
    have h0 : s ≠ [] := by simp [hs]
    obtain ⟨a, as, rest, hP⟩ := splitOnChar_head_shape '/' s h0 h
    have hsplit := splitOnChar_cons_eq '/' s
    unfold segmentsOf
    rw [hsplit, hP]
    by_cases hL : ((a :: as) :: rest).getLast? = some []
    · cases rest with
      | nil => simp at hL
      | cons r1 rs =>
        rw [getLast?_cons_ne_nil] at hL
        · unfold dropTrailEmpty
          rw [if_pos, if_pos]
          · rw [List.dropLast_cons₂, List.dropLast_cons₂]
            cases hdl : ((a :: as) :: r1 :: rs).dropLast with
            | nil => simp [List.dropLast_cons₂] at hdl
            | cons d ds =>
              rw [List.dropLast_cons₂] at hdl
              obtain ⟨rfl, hds⟩ : (a :: as) = d ∧ (r1 :: rs).dropLast = ds := by
                simpa using hdl
              simp [dropLeadEmpty]
          · rwa [getLast?_cons_ne_nil _ _ (by simp)]
          · rwa [getLast?_cons_ne_nil _ _ (by simp)]
        · simp
    · unfold dropTrailEmpty
      rw [if_neg, if_neg hL]
      · simp [dropLeadEmpty]
      · rwa [getLast?_cons_ne_nil _ _ (by simp)]

theorem segmentsOf_slash_concat (s : Str) (h : s.getLast? ≠ some '/') :
    segmentsOf (s ++ ['/']) = segmentsOf s := by
  cases hs : s with
  | nil => decide
  | cons x xs =>
    rw [← hs]
    have h0 : s ≠ [] := by simp [hs]
    unfold segmentsOf
    rw [splitOnChar_concat_sep]
    unfold dropTrailEmpty
    rw [if_pos (List.getLast?_concat _), List.dropLast_concat,
      if_neg (getLast?_splitOnChar_ne '/' s h0 h)]

theorem segmentsOf_withLead (s : Str) : segmentsOf (withLead s) = segmentsOf s := by
  unfold withLead
  by_cases h : s.head? = some '/'
  · rw [if_pos h]
  · rw [if_neg h]
    exact segmentsOf_slash_cons s h

theorem segmentsOf_withTrail (s : Str) : segmentsOf (withTrail s) = segmentsOf s := by
  unfold withTrail
  by_cases h : s.getLast? = some '/'
  · rw [if_pos h]
  · rw [if_neg h]
    exact segmentsOf_slash_concat s h

/-! ### Generic lemmas about firstIdx and updateAt -/

theorem firstIdx_some_iff {α : Type} (p : α → Bool) (l : List α) (i : Nat) (x : α) :
    firstIdx p l = some (i, x) ↔
      l[i]? = some x ∧ p x = true ∧
        ∀ j y, j < i → l[j]? = some y → p y = false := by
  induction l generalizing i with
  | nil => simp [firstIdx]
  | cons a t ih =>
    by_cases hp : p a = true
    · simp only [firstIdx, hp, if_true]
      constructor
      · intro h
        obtain ⟨rfl, rfl⟩ : 0 = i ∧ a = x := by
          simpa [Prod.ext_iff, eq_comm] using h
        simp [hp]
      · rintro ⟨h1, h2, h3⟩
        cases i with
        | zero =>
          simp only [List.getElem?_cons_zero, Option.some.injEq] at h1
          simp [h1]
        | succ k =>
          have := h3 0 a (Nat.succ_pos k) (by simp)
          rw [hp] at this
          exact absurd this (by simp)
    · simp only [firstIdx, hp, if_false]
      constructor
      · intro h
        obtain ⟨⟨i2, x2⟩, hfi, hmap⟩ := Option.map_eq_some'.mp h
        obtain ⟨rfl, rfl⟩ : i2 + 1 = i ∧ x2 = x := by
          simpa [Prod.ext_iff] using hmap
        obtain ⟨g1, g2, g3⟩ := (ih i2).mp hfi
        refine ⟨by simpa using g1, g2, ?_⟩
        intro j y hj hy
        cases j with
        | zero =>
          simp only [List.getElem?_cons_zero, Option.some.injEq] at hy
          subst hy
          exact Bool.eq_false_iff.mpr hp
        | succ m =>
          exact g3 m y (Nat.lt_of_succ_lt_succ hj) (by simpa using hy)
      · rintro ⟨h1, h2, h3⟩
        cases i with
        | zero =>
          simp only [List.getElem?_cons_zero, Option.some.injEq] at h1
          subst h1
          exact absurd h2 hp
        | succ k =>
          have hk : firstIdx p t = some (k, x) := by
            refine (ih k).mpr ⟨by simpa using h1, h2, ?_⟩
            intro j y hj hy
            exact h3 (j + 1) y (Nat.succ_lt_succ hj) (by simpa using hy)
          simp [hk]

theorem firstIdx_none_iff {α : Type} (p : α → Bool) (l : List α) :
    firstIdx p l = none ↔ ∀ x ∈ l, p x = false := by
  induction l with
  | nil => simp [firstIdx]
  | cons a t ih =>
    by_cases hp : p a = true
    · simp [firstIdx, hp]
    · have hpa : p a = false := Bool.eq_false_iff.mpr hp
      simp [firstIdx, hp, hpa, ih]

theorem updateAt_get_self {α : Type} (f : α → α) (l : List α) (i : Nat) :
    (updateAt f l i)[i]? = (l[i]?).map f := by
  induction l generalizing i with
  | nil => simp [updateAt]
  | cons a t ih =>
    cases i with
    | zero => simp [updateAt]
    | succ k => simpa [updateAt] using ih k

theorem updateAt_get_ne {α : Type} (f : α → α) (l : List α) (i j : Nat) (h : j ≠ i) :
    (updateAt f l i)[j]? = l[j]? := by
  induction l generalizing i j with
  | nil => simp [updateAt]
  | cons a t ih =>
    cases i with
    | zero =>
      cases j with
      | zero => exact absurd rfl h
      | succ k => simp [updateAt]
    | succ k =>
      cases j with
      | zero => simp [updateAt]
      | succ m =>
        simpa [updateAt] using ih k m (fun e => h (by omega))

theorem firstIdx_updateAt {α : Type} (p : α → Bool) (f : α → α) (hf : ∀ y, p (f y) = p y)
    (l : List α) (i : Nat) (x : α) (h : firstIdx p l = some (i, x)) :
    firstIdx p (updateAt f l i) = some (i, f x) := by
  induction l generalizing i with
  | nil => simp [firstIdx] at h
  | cons a t ih =>
    by_cases hp : p a = true
    · simp only [firstIdx, hp, if_true] at h
      obtain ⟨rfl, rfl⟩ : 0 = i ∧ a = x := by
        simpa [Prod.ext_iff, eq_comm] using h
      simp [updateAt, firstIdx, hf, hp]
    · simp only [firstIdx, hp, if_false] at h
      obtain ⟨⟨i2, x2⟩, hfi, hmap⟩ := Option.map_eq_some'.mp h
      obtain ⟨rfl, rfl⟩ : i2 + 1 = i ∧ x2 = x := by
        simpa [Prod.ext_iff] using hmap
      simp [updateAt, firstIdx, hp, ih i2 hfi]

/-! ### Lemmas linking resolution to the first-match search -/

theorem resolveInst_fst (inst : ServerInstance) (meth pq : Str)
    (hdrs : List (Str × Str)) (bd : Str) :
    (resolveInst inst meth pq hdrs bd).1 =
      firstMatch inst.handlers meth (splitQ pq).1 (queryPairs pq) := by
  unfold resolveInst
  cases h : firstMatch inst.handlers meth (splitQ pq).1 (queryPairs pq) with
  | none => rfl
  | some ir => cases ir; rfl

theorem resolveInst_snd_some (inst : ServerInstance) (meth pq : Str)
    (hdrs : List (Str × Str)) (bd : Str) (i : Nat) (r : HandlerRecord)
    (h : firstMatch inst.handlers meth (splitQ pq).1 (queryPairs pq) = some (i, r)) :
    (resolveInst inst meth pq hdrs bd).2 =
      { inst with
        handlers := updateAt (fun h2 => recordCall h2 (mkPayload meth pq hdrs bd)) inst.handlers i } := by
  unfold resolveInst
  rw [h]

theorem resolveInst_snd_none (inst : ServerInstance) (meth pq : Str)
    (hdrs : List (Str × Str)) (bd : Str)
    (h : firstMatch inst.handlers meth (splitQ pq).1 (queryPairs pq) = none) :
    (resolveInst inst meth pq hdrs bd).2 = inst := by
  unfold resolveInst
  rw [h]

theorem handlerChecks_recordCall (h : HandlerRecord) (p : RequestPayload)
    (meth path : Str) (query : List (Str × Str)) :
    handlerChecks (recordCall h p) meth path query = handlerChecks h meth path query := rfl

theorem pairsSubset_iff (R Q : List (Str × Str)) :
    pairsSubset R Q = true ↔ ∀ kv ∈ R, kv ∈ Q := by
  simp [pairsSubset]

/-! ### Lemmas about a query embedded in a registered pattern -/

theorem splitQ_cons_ne (c : Char) (rest : Str) (h : ¬ c = '?') :
    splitQ (c :: rest) = ((splitQ rest).1.cons c, (splitQ rest).2) := by
  simp [splitQ, h]

theorem splitQ_no_mark (a : Str) (h : '?' ∉ a) : splitQ a = (a, none) := by
  induction a with
  | nil => rfl
  | cons c cs ih =>
    have hc : ¬ c = '?' := fun e => h (by simp [e])
    have h2 : '?' ∉ cs := fun m => h (by simp [m])
    rw [splitQ_cons_ne c _ hc, ih h2]

theorem splitQ_embedded (a b : Str) (h : '?' ∉ a) :
    splitQ (a ++ '?' :: b) = (a, some b) := by
  induction a with
  | nil => rfl
  | cons c cs ih =>
    have hc : ¬ c = '?' := fun e => h (by simp [e])
    have h2 : '?' ∉ cs := fun m => h (by simp [m])
    rw [List.cons_append, splitQ_cons_ne c _ hc, ih h2]

/-! ### Claim theorems -/

/-- C1: for every Server Instance and request, resolution returns the
first Handler Record in registration order satisfying all checks —
a record is returned at index i exactly when it passes all checks and
every earlier-registered record fails some check, so an
earlier-registered matching handler always shadows a later one,
regardless of specificity. -/
theorem resolve_first_in_registration_order (inst : ServerInstance) (meth pq : Str)
    (hdrs : List (Str × Str)) (bd : Str) (i : Nat) (r : HandlerRecord) :
    (resolveInst inst meth pq hdrs bd).1 = some (i, r) ↔
      inst.handlers[i]? = some r ∧
      handlerChecks r meth (splitQ pq).1 (queryPairs pq) = true ∧
      ∀ j h2, j < i → inst.handlers[j]? = some h2 →
        handlerChecks h2 meth (splitQ pq).1 (queryPairs pq) = false := by
  rw [resolveInst_fst]
  exact firstIdx_some_iff _ _ i r

/-- C2: the Search-Param Predicate succeeds exactly when every required
key/value pair is present in the request query (subset semantics, so
extraneous request keys never cause a mismatch), always succeeds on an
empty requirement, and the comparison is on decoded values, so the
percent-encoded query of the test suite matches its decoded
requirement. -/
theorem search_matches_subset_semantics (Q R : List (Str × Str)) :
    (searchMatches Q R = true ↔ ∀ kv ∈ R, kv ∈ Q) ∧
    searchMatches Q [] = true ∧
    searchMatches
      (parseQuery "redirect=https%3A%2F%2Fhello.world%3Ffoo%3Dbar".data)
      [("redirect".data, "https://hello.world?foo=bar".data)] = true := by
  refine ⟨pairsSubset_iff R Q, rfl, by decide⟩

/-- C3: path-template matching is insensitive to a single leading or
trailing slash on either the registered pattern or the request path —
for every pattern and path, replacing either side by its leading-slash,
trailing-slash or both-slash variant leaves isMatch unchanged, so
registering test, /test or test/ all match a request to /test and to
/test/. -/
theorem path_match_slash_insensitive (p q : Str) :
    ∀ p2 ∈ slashVariants p, ∀ q2 ∈ slashVariants q,
      pathIsMatch p2 q2 = pathIsMatch p q := by
  have hseg : ∀ s : Str, ∀ s2 ∈ slashVariants s, segmentsOf s2 = segmentsOf s := by
    intro s s2 hm
    simp only [slashVariants, List.mem_cons, List.not_mem_nil, or_false] at hm
    rcases hm with rfl | rfl | rfl | rfl
    · rfl
    · exact segmentsOf_withLead s
    · exact segmentsOf_withTrail s
    · rw [segmentsOf_withLead, segmentsOf_withTrail]
  intro p2 hm q2 hm2
  unfold pathIsMatch compilePath
  rw [hseg p p2 hm, hseg q q2 hm2]

/-- Witness for C3 at the test suite's example: the both-slash request
path /test/ matches the plain pattern test exactly when the plain path
test does. -/
theorem path_match_slash_insensitive_witness :
    pathIsMatch "test".data "/test/".data =
      pathIsMatch "test".data "test".data :=
  path_match_slash_insensitive "test".data "test".data
    "test".data (by decide) "/test/".data (by decide)

/-! ### Concrete instances mirroring the repository's test suite -/

/-- The test server's base URL. -/
def testBase : Str := "https://test.com".data

/-- Handler config with exact path-param constraint id = 1 and response
body A. -/
def cfgIdA : HandlerConfig :=
  { pathParams := [("id".data, "1".data)], searchParams := [],
    response := { status := 200, body := "A".data, headers := [] } }

/-- Handler config with exact path-param constraint id = 2 and response
body B. -/
def cfgIdB : HandlerConfig :=
  { pathParams := [("id".data, "2".data)], searchParams := [],
    response := { status := 200, body := "B".data, headers := [] } }

/-- GET /test/:id handlers with constraints id=1 then id=2. -/
def instParamAB : ServerInstance :=
  registerHandler
    (registerHandler (createInstance testBase) "get".data "/test/:id".data cfgIdA)
    "get".data "/test/:id".data cfgIdB

/-- GET /test/:id handlers with constraints id=2 then id=1. -/
def instParamBA : ServerInstance :=
  registerHandler
    (registerHandler (createInstance testBase) "get".data "/test/:id".data cfgIdB)
    "get".data "/test/:id".data cfgIdA

/-- C4: with exact path-param constraints id=1 → A and id=2 → B
registered in either order, GET /test/1 yields A and GET /test/2 yields
B — a candidate whose declared path-param constraints disagree with the
captured values is rejected and resolution continues. -/
theorem path_param_constraints_select_handler :
    emitResponse (resolveInst instParamAB "GET".data "/test/1".data [] []).1 =
      { status := 200, body := "A".data, headers := [] } ∧
    emitResponse (resolveInst instParamAB "GET".data "/test/2".data [] []).1 =
      { status := 200, body := "B".data, headers := [] } ∧
    emitResponse (resolveInst instParamBA "GET".data "/test/1".data [] []).1 =
      { status := 200, body := "A".data, headers := [] } ∧
    emitResponse (resolveInst instParamBA "GET".data "/test/2".data [] []).1 =
      { status := 200, body := "B".data, headers := [] } := by
  refine ⟨by decide, by decide, by decide, by decide⟩

/-- C5: when no registered Handler Record passes all checks for a
request, resolution returns NotFound and the emitted response has
status 404 and an empty body. -/
theorem no_match_resolves_not_found (inst : ServerInstance) (meth pq : Str)
    (hdrs : List (Str × Str)) (bd : Str)
    (h : ∀ r ∈ inst.handlers, handlerChecks r meth (splitQ pq).1 (queryPairs pq) = false) :
    (resolveInst inst meth pq hdrs bd).1 = none ∧
    emitResponse (resolveInst inst meth pq hdrs bd).1 =
      { status := 404, body := [], headers := [] } := by
  have h1 : (resolveInst inst meth pq hdrs bd).1 = none := by
    rw [resolveInst_fst]
    exact (firstIdx_none_iff _ _).mpr h
  refine ⟨h1, ?_⟩
  rw [h1]
  rfl

/-- Witness for C5 at the test suite's example: a server with no
registered handlers answers GET /test with a 404 and empty body. -/
theorem no_match_resolves_not_found_witness :
    (resolveInst (createInstance testBase) "GET".data "/test".data [] []).1 = none ∧
    emitResponse (resolveInst (createInstance testBase) "GET".data "/test".data [] []).1 =
      { status := 404, body := [], headers := [] } :=
  no_match_resolves_not_found (createInstance testBase) "GET".data "/test".data [] []
    (by simp [createInstance])

/-- A single GET /test handler used to observe call history. -/
def instWas : ServerInstance :=
  registerHandler (createInstance testBase) "get".data "/test".data
    (bareConfig "I was mocked".data)

/-- C6: call history starts at never-called with no captured request,
and a successful resolution increments the chosen record's counter and
captures the inbound payload before the response is returned, leaving
every other record untouched; a failed resolution changes nothing. -/
theorem call_history_updated_only_on_success (inst : ServerInstance) (meth pq : Str)
    (hdrs : List (Str × Str)) (bd : Str) (i : Nat) (r : HandlerRecord)
    (m pat : Str) (cfg : HandlerConfig)
    (hres : (resolveInst inst meth pq hdrs bd).1 = some (i, r)) :
    wasCalled (mkHandler m pat cfg) = false ∧
    getSentRequest (mkHandler m pat cfg) = none ∧
    inst.handlers[i]? = some r ∧
    (resolveInst inst meth pq hdrs bd).2.handlers[i]? =
      some (recordCall r (mkPayload meth pq hdrs bd)) ∧
    wasCalled (recordCall r (mkPayload meth pq hdrs bd)) = true ∧
    getSentRequest (recordCall r (mkPayload meth pq hdrs bd)) =
      some (mkPayload meth pq hdrs bd) ∧
    (∀ j, j ≠ i → (resolveInst inst meth pq hdrs bd).2.handlers[j]? = inst.handlers[j]?) ∧
    (∀ inst2 : ServerInstance, (resolveInst inst2 meth pq hdrs bd).1 = none →
      (resolveInst inst2 meth pq hdrs bd).2 = inst2) := by
  rw [resolveInst_fst] at hres
  have hget : inst.handlers[i]? = some r := ((firstIdx_some_iff _ _ i r).mp hres).1
  have hsnd := resolveInst_snd_some inst meth pq hdrs bd i r hres
  refine ⟨rfl, rfl, hget, ?_, ?_, rfl, ?_, ?_⟩
  · rw [hsnd]
    show (updateAt _ inst.handlers i)[i]? = _
    rw [updateAt_get_self, hget]
    rfl
  · simp [wasCalled, recordCall]
  · intro j hj
    rw [hsnd]
    show (updateAt _ inst.handlers i)[j]? = _
    exact updateAt_get_ne _ inst.handlers i j hj
  · intro inst2 h2
    rw [resolveInst_fst] at h2
    exact resolveInst_snd_none inst2 meth pq hdrs bd h2

/-- Witness for C6: resolving GET /test against the single registered
handler captures the sent request. -/
theorem call_history_updated_only_on_success_witness :
    getSentRequest
      (recordCall (mkHandler "get".data "/test".data (bareConfig "I was mocked".data))
        (mkPayload "GET".data "/test".data [] [])) =
      some (mkPayload "GET".data "/test".data [] []) :=
  (call_history_updated_only_on_success instWas "GET".data "/test".data [] [] 0
    (mkHandler "get".data "/test".data (bareConfig "I was mocked".data))
    "get".data "/test".data (bareConfig "I was mocked".data)
    (by decide)).2.2.2.2.2.1

/-- GET /test?id=helo then GET /test?id=hello, registered with the query
embedded directly in the pattern. -/
def instEmbed : ServerInstance :=
  registerHandler
    (registerHandler (createInstance testBase) "get".data "/test?id=helo".data
      (bareConfig "U".data))
    "get".data "/test?id=hello".data (bareConfig "E".data)

/-- C7: a query string embedded in a registered pattern is parsed at
registration time and folded into the required search-param constraints
(the registered record equals the one registered with the plain path and
the explicit constraints), and it is not part of the path for segment
matching; concretely, GET /test?id=hello matches the handler registered
as /test?id=hello and not the one registered as /test?id=helo. -/
theorem embedded_query_folded_into_constraints (m a b : Str) (cfg : HandlerConfig)
    (h : '?' ∉ a) :
    mkHandler m (a ++ '?' :: b) cfg =
      { mkHandler m a cfg with
        searchParams := cfg.searchParams ++ parseQuery b } ∧
    emitResponse (resolveInst instEmbed "GET".data "/test?id=hello".data [] []).1 =
      { status := 200, body := "E".data, headers := [] } ∧
    emitResponse (resolveInst instEmbed "GET".data "/test?id=helo".data [] []).1 =
      { status := 200, body := "U".data, headers := [] } := by
  refine ⟨?_, by decide, by decide⟩
  unfold mkHandler
  rw [splitQ_embedded a b h, splitQ_no_mark a h]
  simp

/-- Witness for C7 at the test suite's pattern: registering
/test?id=hello equals registering /test with the explicit search-param
constraint id=hello. -/
theorem embedded_query_folded_into_constraints_witness :
    mkHandler "get".data ("/test".data ++ '?' :: "id=hello".data)
        (bareConfig "E".data) =
      { mkHandler "get".data "/test".data (bareConfig "E".data) with
        searchParams := (bareConfig "E".data).searchParams ++ parseQuery "id=hello".data } :=
  (embedded_query_folded_into_constraints "get".data "/test".data "id=hello".data
    (bareConfig "E".data) (by decide)).1

/-- Server Instance on https://a.test answering GET /test with bodyA. -/
def instA8 : ServerInstance :=
  registerHandler (createInstance "https://a.test".data) "get".data "/test".data
    (bareConfig "bodyA".data)

/-- Server Instance on https://b.test answering GET /test with bodyB. -/
def instB8 : ServerInstance :=
  registerHandler (createInstance "https://b.test".data) "get".data "/test".data
    (bareConfig "bodyB".data)

/-- C8: a request is resolved only against the Server Instance whose
base URL prefixes the request URL — the chosen instance's base URL is a
prefix of the URL and no earlier instance's base URL is — and with the
two-instance scenario of the test suite each request reaches its own
instance's handler in either registration order. -/
theorem request_scoped_to_base_url_instance (insts : List ServerInstance) (url : Str)
    (i : Nat) (inst : ServerInstance)
    (h : findInst insts url = some (i, inst)) :
    listStarts inst.baseUrl url = true ∧
    insts[i]? = some inst ∧
    (∀ j inst2, j < i → insts[j]? = some inst2 →
      listStarts inst2.baseUrl url = false) ∧
    (handleRequest ⟨[instA8, instB8]⟩ "GET".data "https://b.test/test".data [] []).1.body =
      "bodyB".data ∧
    (handleRequest ⟨[instB8, instA8]⟩ "GET".data "https://b.test/test".data [] []).1.body =
      "bodyB".data ∧
    (handleRequest ⟨[instA8, instB8]⟩ "GET".data "https://a.test/test".data [] []).1.body =
      "bodyA".data ∧
    (handleRequest ⟨[instB8, instA8]⟩ "GET".data "https://a.test/test".data [] []).1.body =
      "bodyA".data := by
  obtain ⟨h1, h2, h3⟩ := (firstIdx_some_iff _ insts i inst).mp h
  exact ⟨h2, h1, fun j inst2 hj hg => h3 j inst2 hj hg,
    by decide, by decide, by decide, by decide⟩

/-- Witness for C8: in the two-instance registry the instance found for
https://b.test/test has a base URL prefixing that URL. -/
theorem request_scoped_to_base_url_instance_witness :
    listStarts instB8.baseUrl "https://b.test/test".data = true :=
  (request_scoped_to_base_url_instance [instA8, instB8] "https://b.test/test".data
    1 instB8 (by decide)).1

/-- A single GET /test handler used to observe repeated resolution. -/
def instRep : ServerInstance :=
  registerHandler (createInstance testBase) "get".data "/test".data
    (bareConfig "R".data)

/-- C9: resolving the same request twice against an unchanged handler
list matches the same record again, its call counter grows by one on
each call (two in total), and the state of every other Handler Record is
left unchanged by both resolutions. -/
theorem repeated_resolve_increments_only_matched (inst : ServerInstance) (meth pq : Str)
    (hdrs : List (Str × Str)) (bd : Str) (i : Nat) (r : HandlerRecord)
    (h : (resolveInst inst meth pq hdrs bd).1 = some (i, r)) :
    (resolveInst (resolveInst inst meth pq hdrs bd).2 meth pq hdrs bd).1 =
      some (i, recordCall r (mkPayload meth pq hdrs bd)) ∧
    ((resolveInst (resolveInst inst meth pq hdrs bd).2 meth pq hdrs bd).2.handlers[i]?).map
        HandlerRecord.callCount = some (r.callCount + 2) ∧
    (∀ j, j ≠ i →
      (resolveInst (resolveInst inst meth pq hdrs bd).2 meth pq hdrs bd).2.handlers[j]? =
        inst.handlers[j]?) := by
  rw [resolveInst_fst] at h
  have hget : inst.handlers[i]? = some r := ((firstIdx_some_iff _ _ i r).mp h).1
  have hsnd := resolveInst_snd_some inst meth pq hdrs bd i r h
  have hup : (resolveInst inst meth pq hdrs bd).2.handlers =
      updateAt (fun h2 => recordCall h2 (mkPayload meth pq hdrs bd)) inst.handlers i := by
    rw [hsnd]
  have hfm1 : firstMatch (resolveInst inst meth pq hdrs bd).2.handlers meth
      (splitQ pq).1 (queryPairs pq) =
      some (i, recordCall r (mkPayload meth pq hdrs bd)) := by
    rw [hup]
    exact firstIdx_updateAt _ _
      (fun y => handlerChecks_recordCall y (mkPayload meth pq hdrs bd) meth
        (splitQ pq).1 (queryPairs pq)) inst.handlers i r h
  have hfst1 := resolveInst_fst (resolveInst inst meth pq hdrs bd).2 meth pq hdrs bd
  have hsnd1 := resolveInst_snd_some (resolveInst inst meth pq hdrs bd).2 meth pq hdrs bd
    i (recordCall r (mkPayload meth pq hdrs bd)) hfm1
  have hup1 : (resolveInst (resolveInst inst meth pq hdrs bd).2 meth pq hdrs bd).2.handlers =
      updateAt (fun h2 => recordCall h2 (mkPayload meth pq hdrs bd))
        (resolveInst inst meth pq hdrs bd).2.handlers i := by
    rw [hsnd1]
  refine ⟨by rw [hfst1, hfm1], ?_, ?_⟩
  · rw [hup1, updateAt_get_self, hup, updateAt_get_self, hget]
    rfl
  · intro j hj
    rw [hup1, updateAt_get_ne _ _ i j hj, hup, updateAt_get_ne _ _ i j hj]

/-- Witness for C9: GET /test resolved twice against the single
registered handler matches the same record with its counter at one on
the second resolution's input record. -/
theorem repeated_resolve_increments_only_matched_witness :
    (resolveInst (resolveInst instRep "GET".data "/test".data [] []).2
        "GET".data "/test".data [] []).1 =
      some (0, recordCall (mkHandler "get".data "/test".data (bareConfig "R".data))
        (mkPayload "GET".data "/test".data [] [])) :=
  (repeated_resolve_increments_only_matched instRep "GET".data "/test".data [] [] 0
    (mkHandler "get".data "/test".data (bareConfig "R".data)) (by decide)).1

/-- A single GET /test handler used to observe reset. -/
def instReset10 : ServerInstance :=
  registerHandler (createInstance testBase) "get".data "/test".data
    (bareConfig "E".data)

/-- C10: reset discards the handler registrations themselves — after a
reset every instance's handler list is empty, any request resolves to
NotFound and is emitted as a 404 with empty body, and a previously
matching request matches again only once the handler is registered
again. -/
theorem reset_drops_registrations (reg : Registry) (inst : ServerInstance)
    (meth pq : Str) (hdrs : List (Str × Str)) (bd : Str) :
    (resolveInst (resetInstance inst) meth pq hdrs bd).1 = none ∧
    emitResponse (resolveInst (resetInstance inst) meth pq hdrs bd).1 =
      { status := 404, body := [], headers := [] } ∧
    (∀ inst2 ∈ (resetRegistry reg).instances, inst2.handlers = []) ∧
    emitResponse (resolveInst instReset10 "GET".data "/test".data [] []).1 =
      { status := 200, body := "E".data, headers := [] } ∧
    emitResponse
      (resolveInst (resetInstance instReset10) "GET".data "/test".data [] []).1 =
      { status := 404, body := [], headers := [] } ∧
    emitResponse
      (resolveInst
        (registerHandler (resetInstance instReset10) "get".data "/test".data
          (bareConfig "E".data))
        "GET".data "/test".data [] []).1 =
      { status := 200, body := "E".data, headers := [] } := by
  refine ⟨rfl, rfl, ?_, by decide, by decide, by decide⟩
  intro inst2 hm
  simp only [resetRegistry, List.mem_map] at hm
  obtain ⟨inst3, _, rfl⟩ := hm
  rfl

end Shm
